import Mathlib

/-!
# Shallow embedding of `jsonParser.go`

The repository is a single Go file: a `JSONParser` over a `bytes.Buffer`
(`input`, a cursor that only moves forward except for single-byte
`UnreadByte` pushback) together with a `currentToken` string field, a
lexer `readNextToken`, and the mutually recursive `parseValue`,
`parseObject`, `parseArray`.

The embedding below follows the source line by line:

* the unread portion of the `bytes.Buffer` is a `List Char`; `Next(1)`
  is pattern matching on the head, `UnreadByte` (always applied to the
  byte just read) is modelled by simply not consuming the byte,
  `Len()` is `List.length` and `String()` is the remaining list;
* Go's `s[lo:hi]` string slicing panics unless `0 ≤ lo ≤ hi ≤ len s`;
  it is modelled by `goSlice`, returning `none` on the panicking case;
* Go panics (the slice panic in the lexer and `panic("Expected ':'")`
  in `parseObject`) and recursion that would run forever are
  surfaced through `Except GoErr`, the recursive parser functions take
  fuel and report `.outOfFuel` when it runs out;
* `readNextToken` mutates `p.currentToken` on some paths and leaves it
  untouched on others; the core of the lexer (`readTokenCore`) is
  therefore a pure function of the buffer returning the consumed
  buffer, the Go return flag, and `Option String`: `some tok` when the
  source assigns `p.currentToken = tok`, `none` when the field is left
  alone.  `readNextToken` itself rebuilds the mutated parser state.
  The source never reads `currentToken` inside `readNextToken`, so
  this split is a faithful decomposition;
* `json.Number(tok).Float64()` is `strconv.ParseFloat(tok, 64)`; only
  its success or failure is ever observed by the source
  (`parseValue`'s default branch), which `goFloatOk` models with the
  `ParseFloat` surface syntax (decimal mantissa with optional
  exponent, and the signed `inf`/`infinity` and unsigned `nan`
  specials; the hexadecimal-float and digit-underscore forms of
  `ParseFloat` are not modelled — no token in this development
  contains `0x` or `_`).  `JSONValue.number` carries the token text
  whose `ParseFloat` value the Go code stores; no theorem below
  depends on the numeric value of a float;
* the Go `map[string]JSONValue` is an association list updated with
  last-write-wins `mapInsert`; the source never iterates the map, so
  no map-order question arises.
-/

/-- The whitespace set of `skipWhitespaces` (space, LF, CR, TAB). -/
def isWsChar (c : Char) : Bool :=
  c = ' ' || c = '\n' || c = '\r' || c = '\t'

/-- The six single-character structural tokens of the first `switch` case. -/
def isStructuralChar (c : Char) : Bool :=
  c = '{' || c = '}' || c = '[' || c = ']' || c = ':' || c = ','

/-- Membership in `[]byte("0123456789+-.eE")`, the byte set of the numeric
scan (`bytes.IndexByte(...) >= 0`). -/
def isNumChar (c : Char) : Bool :=
  ("0123456789+-.eE".toList).contains c

/-- Go panics and exhaustion of the fuel given to the recursive parser. -/
inductive GoErr where
  | sliceBounds
  | expectedColon
  | outOfFuel
deriving DecidableEq, Repr

/-- `skipWhitespaces`: read bytes while they are whitespace, unreading the
first non-whitespace byte; net effect is dropping the whitespace prefix. -/
def skipWhitespaces : List Char → List Char
  | [] => []
  | c :: rest => if isWsChar c then skipWhitespaces rest else c :: rest

/-- Go string slicing `s[lo:hi]` (indices are `int` in Go): the sliced
characters, or `none` for the out-of-range runtime panic. -/
def goSlice (s : List Char) (lo hi : Int) : Option (List Char) :=
  if 0 ≤ lo ∧ lo ≤ hi ∧ hi ≤ (s.length : Int) then
    some ((s.take hi.toNat).drop lo.toNat)
  else none

/-- The `case '"'` loop of `readNextToken`: scan forward byte by byte; on a
`'"'` evaluate `p.input.String()[start : p.input.Len()-1]` and assign the
token; if the buffer empties first, fall through with no assignment
(the Go loop just ends and the function returns `true`). -/
def scanStringTok : List Char → Nat → Except GoErr (List Char × Option String)
  | [], _ => .ok ([], none)
  | c :: cs, start =>
    if c = '"' then
      match goSlice cs (start : Int) ((cs.length : Int) - 1) with
      | some tok => .ok (cs, some (String.mk tok))
      | none => .error .sliceBounds
    else scanStringTok cs start

/-- The `default` loop of `readNextToken`: scan while bytes are numeric;
at the first non-numeric byte, unread it and evaluate
`p.input.String()[start : p.input.Len()]`; if the buffer empties first,
fall through with no assignment. -/
def scanNumberTok : List Char → Nat → Except GoErr (List Char × Option String)
  | [], _ => .ok ([], none)
  | c :: cs, start =>
    if isNumChar c then scanNumberTok cs start
    else
      match goSlice (c :: cs) (start : Int) ((c :: cs).length : Int) with
      | some tok => .ok (c :: cs, some (String.mk tok))
      | none => .error .sliceBounds

/-- Core of `readNextToken` as a function of the buffer alone: the returned
triple is (the Go boolean result, the remaining buffer, `some tok` when the
source assigns `p.currentToken = tok` and `none` when it does not). -/
def readTokenCore (buf : List Char) : Except GoErr (Bool × List Char × Option String) :=
  match skipWhitespaces buf with
  | [] => .ok (false, [], none)
  | c :: rest =>
    if isStructuralChar c then .ok (true, rest, some (String.mk [c]))
    else if c = 'n' then
      if 4 ≤ rest.length then
        if rest.take 4 = "null".toList then .ok (true, rest.drop 4, some "null")
        else .ok (false, rest.drop 4, none)
      else .ok (false, rest, none)
    else if c = 't' then
      if 4 ≤ rest.length then
        if rest.take 4 = "true".toList then .ok (true, rest.drop 4, some "true")
        else .ok (false, rest.drop 4, none)
      else .ok (false, rest, none)
    else if c = 'f' then
      if 5 ≤ rest.length then
        if rest.take 5 = "false".toList then .ok (true, rest.drop 5, some "false")
        else .ok (false, rest.drop 5, none)
      else .ok (false, rest, none)
    else if c = '"' then
      match scanStringTok rest rest.length with
      | .ok (r, tk) => .ok (true, r, tk)
      | .error e => .error e
    else
      match scanNumberTok rest rest.length with
      | .ok (r, tk) => .ok (true, r, tk)
      | .error e => .error e

/-- The `JSONParser` struct: unread input plus the `currentToken` field
(`NewJSONParser` starts it at `""`). -/
structure JSONParser where
  input : List Char
  currentToken : String
deriving DecidableEq, Repr

/-- `readNextToken` on the full parser state: run the core and commit the
token assignment (or keep the stale token) exactly as the source does. -/
def readNextToken (p : JSONParser) : Except GoErr (Bool × JSONParser) :=
  match readTokenCore p.input with
  | .ok (b, r, tk) => .ok (b, ⟨r, tk.getD p.currentToken⟩)
  | .error e => .error e

/-- Success of `json.Number(s).Float64()`, i.e. of
`strconv.ParseFloat(s, 64)`: optional sign, then either the
`inf`/`infinity` specials (or unsigned `nan`), or a decimal mantissa with
at least one digit and an optional well-formed exponent.  Hexadecimal
floats and digit-separating underscores are not modelled (see header). -/
def goFloatOk (s : String) : Bool :=
  let l := s.toList
  let l1 := match l with
    | '+' :: r => r
    | '-' :: r => r
    | _ => l
  let lower := l1.map Char.toLower
  if lower = "inf".toList || lower = "infinity".toList then true
  else if l.map Char.toLower = "nan".toList then true
  else
    let intPart := l1.takeWhile Char.isDigit
    let rest1 := l1.dropWhile Char.isDigit
    let fracRest : List Char × List Char := match rest1 with
      | '.' :: r => (r.takeWhile Char.isDigit, r.dropWhile Char.isDigit)
      | _ => ([], rest1)
    if intPart.isEmpty && fracRest.1.isEmpty then false
    else
      match fracRest.2 with
      | [] => true
      | e :: r3 =>
        if e = 'e' || e = 'E' then
          let r4 : List Char := match r3 with
            | '+' :: x => x
            | '-' :: x => x
            | _ => r3
          !r4.isEmpty && r4.all Char.isDigit
        else false

/-- The `JSONValue` tagged union.  The source stores `Type` strings
`"null"`, `"true"`, `"false"`, `"number"`, `"string"`, `"object"`,
`"array"` with an `interface{}` payload; one constructor per tag, with
`number` carrying the token text whose `ParseFloat` value Go stores. -/
inductive JSONValue where
  | vnull
  | vtrue
  | vfalse
  | number (text : String)
  | vstring (s : String)
  | object (fields : List (String × JSONValue))
  | array (elems : List JSONValue)

/-- Go map assignment `object[key] = value`: replace an existing binding of
`key`, otherwise append. -/
def mapInsert (m : List (String × JSONValue)) (k : String) (v : JSONValue) :
    List (String × JSONValue) :=
  match m with
  | [] => [(k, v)]
  | (k', v') :: rest => if k' = k then (k, v) :: rest else (k', v') :: mapInsert rest k v

mutual

/-- `parseValue`: call `readNextToken` (the boolean result is discarded,
as at every call site in the source), then switch on `currentToken`. -/
def parseValue : Nat → JSONParser → Except GoErr (JSONValue × JSONParser)
  | 0, _ => .error .outOfFuel
  | fuel + 1, p =>
    match readNextToken p with
    | .error e => .error e
    | .ok (_, q) =>
      if q.currentToken = "null" then .ok (.vnull, q)
      else if q.currentToken = "true" then .ok (.vtrue, q)
      else if q.currentToken = "false" then .ok (.vfalse, q)
      else if q.currentToken = "\x7b" then parseObject fuel q
      else if q.currentToken = "[" then parseArray fuel q
      else if goFloatOk q.currentToken then .ok (.number q.currentToken, q)
      else .ok (.vstring q.currentToken, q)

/-- `parseObject`: read a token, then run the `for p.currentToken != "\x7d"`
loop. -/
def parseObject : Nat → JSONParser → Except GoErr (JSONValue × JSONParser)
  | 0, _ => .error .outOfFuel
  | fuel + 1, p =>
    match readNextToken p with
    | .error e => .error e
    | .ok (_, q) => parseObjectLoop fuel q []

/-- The body of `parseObject`'s loop: key := currentToken; read a token and
require `":"` (else `panic("Expected ':'")`); read a token; `parseValue`;
insert; read a token; repeat. -/
def parseObjectLoop : Nat → JSONParser → List (String × JSONValue) →
    Except GoErr (JSONValue × JSONParser)
  | 0, _, _ => .error .outOfFuel
  | fuel + 1, p, acc =>
    if p.currentToken = "\x7d" then .ok (.object acc, p)
    else
      match readNextToken p with
      | .error e => .error e
      | .ok (_, q) =>
        if q.currentToken = ":" then
          match readNextToken q with
          | .error e => .error e
          | .ok (_, q2) =>
            match parseValue fuel q2 with
            | .error e => .error e
            | .ok (v, q3) =>
              match readNextToken q3 with
              | .error e => .error e
              | .ok (_, q4) => parseObjectLoop fuel q4 (mapInsert acc p.currentToken v)
        else .error .expectedColon

/-- `parseArray`: read a token, then run the loop.  Note the source's loop
condition is `p.currentToken != "\x7d"` — the object-closing token. -/
def parseArray : Nat → JSONParser → Except GoErr (JSONValue × JSONParser)
  | 0, _ => .error .outOfFuel
  | fuel + 1, p =>
    match readNextToken p with
    | .error e => .error e
    | .ok (_, q) => parseArrayLoop fuel q []

/-- The body of `parseArray`'s loop: `parseValue`, append, read a token,
repeat while the current token is not `"\x7d"`. -/
def parseArrayLoop : Nat → JSONParser → List JSONValue →
    Except GoErr (JSONValue × JSONParser)
  | 0, _, _ => .error .outOfFuel
  | fuel + 1, p, acc =>
    if p.currentToken = "\x7d" then .ok (.array acc, p)
    else
      match parseValue fuel p with
      | .error e => .error e
      | .ok (v, q) =>
        match readNextToken q with
        | .error e => .error e
        | .ok (_, q2) => parseArrayLoop fuel q2 (acc ++ [v])

end

/-- The top-level parse on a raw buffer: `NewJSONParser` (empty current
token) followed by `parseValue`, keeping only the returned value. -/
def runParseBuf (fuel : Nat) (buf : List Char) : Except GoErr JSONValue :=
  match parseValue fuel ⟨buf, ""⟩ with
  | .ok (v, _) => .ok v
  | .error e => .error e

/-- The top-level parse of a string input, as the example driver does. -/
def runParse (fuel : Nat) (input : String) : Except GoErr JSONValue :=
  runParseBuf fuel input.toList

/-! ## Lexer helper lemmas -/

/-- On every path on which `readNextToken` returns `false` (input exhausted
after whitespace, or a failed `null`/`true`/`false` check), the source skips
the `p.currentToken = ...` assignment: the core reports `none`. -/
theorem readTokenCore_false_none {buf r : List Char} {tk : Option String}
    (h : readTokenCore buf = .ok (false, r, tk)) : tk = none := by
  unfold readTokenCore at h
  cases hsw : skipWhitespaces buf <;> rw [hsw] at h
  · simp_all
  · repeat' split at h
    all_goals simp_all

/-! ## Claims settled by direct evaluation of the embedding -/

/-- Claim C1: the spec says parsing `[1, 2, 3]` yields
`Array([Number 1.0, Number 2.0, Number 3.0])`, with `parseArray`'s loop
terminating on `]`.  The code's loop condition is `p.currentToken != "\x7d"`
(line 149), so the token `]` never terminates the loop; the run reaches the
state (empty input, stale token `"]"`) and loops there forever, which the
first conjunct proves for every remaining fuel; in particular the whole
parse exhausts any concrete fuel (second conjunct) instead of returning the
claimed Array. -/
theorem claim_C1_array_input_diverges :
    (∀ n acc, parseArrayLoop n ⟨[], "]"⟩ acc = .error .outOfFuel) ∧
    runParse 100 "[1, 2, 3]" = .error .outOfFuel := by
  refine ⟨fun n => ?_, rfl⟩
  induction n with
  | zero => intro acc; rfl
  | succ n ih =>
    intro acc
    cases n with
    | zero => rfl
    | succ m =>
      calc parseArrayLoop (m + 1 + 1) ⟨[], "]"⟩ acc
          = parseArrayLoop (m + 1) ⟨[], "]"⟩ (acc ++ [JSONValue.vstring "]"]) := rfl
        _ = .error .outOfFuel := ih _

/-- Claim C2: the spec says parsing
`{"name": "John Doe", "age": 30, "active": true, "tags": ["a", "b"]}`
yields the corresponding Object.  The code instead hits the slice
out-of-range panic while extracting the very first string token `name`
(the `case '"'` arm slices the already-consumed span out of the remaining
buffer, `p.input.String()[start : p.input.Len()-1]`, which is always out
of range when a closing quote is found). -/
theorem claim_C2_object_input_panics :
    runParse 100 "\x7b\"name\": \"John Doe\", \"age\": 30, \"active\": true, \"tags\": [\"a\", \"b\"]\x7d" =
      .error .sliceBounds := rfl

/-- Claim C3: the spec says a `n` followed by exactly `ull` produces a
Null token (and `t`+`rue`, `f`+`alse` analogously).  The code consumes the
`n` and then requires the *next four* bytes to equal `null`
(`p.input.Len() >= 4 && string(p.input.Next(4)) == "null"`), an off-by-one:
on input `null` the check fails (only `ull` remains) and the parse falls
back to the stale empty token, yielding `String("")`; the same happens for
`true` and `false`; input `nnull` — `n` followed by `null` — is what
actually lexes as a Null token. -/
theorem claim_C3_literal_lexing_off_by_one :
    runParse 10 "null" = .ok (.vstring "") ∧
    runParse 10 "true" = .ok (.vstring "") ∧
    runParse 10 "false" = .ok (.vstring "") ∧
    runParse 10 "nnull" = .ok .vnull := ⟨rfl, rfl, rfl, rfl⟩

/-- Claim C4: the spec says that after a `"` the bytes up to the next `"`
become a String token.  In the code, once the closing quote is found the
token is computed as `p.input.String()[start : p.input.Len()-1]`, where
`start` is the buffer length recorded after the opening quote and
`p.input.String()` is the *remaining* (already advanced) buffer: the lower
bound always exceeds the upper bound, so every terminated string literal
panics with a slice-bounds error instead of producing a token. -/
theorem claim_C4_string_token_panics :
    runParse 10 "\"ab\"" = .error .sliceBounds ∧
    readTokenCore "\"ab\":rest".toList = .error .sliceBounds := ⟨rfl, rfl⟩

/-- Claim C5: the spec says that for `{"a" "b"}` parsing fails with the
"expected separator" error of `parseObject` (lines 126–129).  The code
never reaches that check on this input: lexing the key `"a"` already
panics with the string-slice bug (see C4).  The separator check itself is
present and fires on inputs whose keys avoid string tokens: `{,,}` (key
`,`, then a `,` where `:` is required) does produce the `Expected ':'`
panic, which the second conjunct shows. -/
theorem claim_C5_expected_separator :
    runParse 10 "\x7b\"a\" \"b\"\x7d" = .error .sliceBounds ∧
    runParse 10 "\x7b,,\x7d" = .error .expectedColon := ⟨rfl, rfl⟩

/-- Claim C6: the spec says the lexer accepts any numeric-character span as
a Number token (e.g. `1.2.3`, `--5`) and `parseValue` then converts or
falls back to String.  In the code the numeric scan never yields the span:
when the input ends inside the scan the loop falls through with no token
assigned, so `1.2.3` and `--5` parse to `String("")` via the stale initial
token; and when a terminator byte is present a multi-character span panics
on the slice `p.input.String()[start : p.input.Len()]` (third conjunct). -/
theorem claim_C6_number_span_lost :
    runParse 10 "1.2.3" = .ok (.vstring "") ∧
    runParse 10 "--5" = .ok (.vstring "") ∧
    runParse 10 "1.2.3]" = .error .sliceBounds := ⟨rfl, rfl, rfl⟩

/-- Claim C9 counterexample: on input `{,:,n}` the member bound to key `,`
is `String(",")` — built from the very token read immediately after `:`
(the second `,`), not from any later token.  `parseValue`'s own
`readNextToken` consumes the `n`, fails the `null` check (line 45's
`return false`), leaves `currentToken` stale, and the stale token is the
one read after `:`; the claim's "the token read immediately after `:` is
discarded" is therefore false for this member (a parse per the claim would
have bound `String("\x7d")` or failed). -/
theorem claim_C9_counterexample :
    runParse 10 "\x7b,:,n\x7d" = .ok (.object [(",", .vstring ",")]) := rfl

/-- Claim C9 (amended): in `parseObject`, after the `:` separator is
consumed, `readNextToken` is called once and then `parseValue`, and
`parseValue` itself begins by calling `readNextToken`; whenever that inner
read assigns a token (the core returns `some tok`), the token read
immediately after `:` is discarded: `parseValue`'s result does not depend
on the `currentToken` it starts from. -/
theorem claim_C9_amended_discard (fuel : Nat) (p p' : JSONParser) (b : Bool)
    (r : List Char) (tok : String) (hinput : p.input = p'.input)
    (h : readTokenCore p.input = .ok (b, r, some tok)) :
    parseValue (fuel + 1) p = parseValue (fuel + 1) p' := by
  have hp : readNextToken p = .ok (b, ⟨r, tok⟩) := by
    unfold readNextToken; rw [h]; rfl
  have hp' : readNextToken p' = .ok (b, ⟨r, tok⟩) := by
    unfold readNextToken; rw [← hinput, h]; rfl
  simp only [parseValue, hp, hp']

/-- Witness for C9 (amended) at a concrete input: before a buffer holding
`,`, the upcoming read assigns the token `,`, so `parseValue` returns the
same result from current tokens `A` and `B`. -/
theorem claim_C9_amended_discard_witness :
    parseValue 4 ⟨",".toList, "A"⟩ = parseValue 4 ⟨",".toList, "B"⟩ :=
  claim_C9_amended_discard 3 _ _ true [] "," rfl rfl

/-- Claim C10: whenever `readNextToken` returns `false` (input exhausted
after skipping whitespace, or a failed `n`/`t`/`f` literal check), the
`currentToken` field is left unchanged at its previous value.  (That every
caller then proceeds on the stale token is visible in the definitions of
`parseValue`, `parseObject`, `parseObjectLoop`, `parseArray`,
`parseArrayLoop`: each discards the boolean result of `readNextToken`.) -/
theorem claim_C10_false_keeps_token (p q : JSONParser)
    (h : readNextToken p = .ok (false, q)) : q.currentToken = p.currentToken := by
  unfold readNextToken at h
  cases hc : readTokenCore p.input <;> rw [hc] at h
  case error => simp at h
  case ok t =>
    obtain ⟨b, r, tk⟩ := t
    simp only [Except.ok.injEq, Prod.mk.injEq] at h
    obtain ⟨hb, hq⟩ := h
    subst hb
    have : tk = none := readTokenCore_false_none hc
    subst this
    rw [← hq]
    rfl

/-- Witness for C10 at a concrete input: on `null` the literal check fails
(only `ull` remains after the consumed `n`), the lexer returns `false`, and
the previous token `X` survives. -/
theorem claim_C10_false_keeps_token_witness :
    readNextToken ⟨"null".toList, "X"⟩ = .ok (false, ⟨"ull".toList, "X"⟩) ∧
    (JSONParser.mk "ull".toList "X").currentToken =
      (JSONParser.mk "null".toList "X").currentToken :=
  ⟨rfl, claim_C10_false_keeps_token _ _ rfl⟩

/-- Claim C8: after the numeric scan stops at a byte outside
`0-9 + - . e E`, that byte is unread (`p.input.UnreadByte()`) and the next
lexer operation begins exactly at it: whenever `readNextToken` takes the
default (numeric) branch and returns, the remaining buffer starts with the
terminating byte.  Stated for the spans on which the scan returns at all: a
span of two or more numeric bytes dies on the slice panic of line 74 (see
C6) before any further read, so the pushback is observable exactly on the
single-byte spans covered here. -/
theorem claim_C8_numeric_pushback (d t : Char) (r : List Char)
    (hw : isWsChar d = false) (hs : isStructuralChar d = false)
    (hn : d ≠ 'n') (ht : d ≠ 't') (hf : d ≠ 'f') (hq : d ≠ '"')
    (htn : isNumChar t = false) :
    readTokenCore (d :: t :: r) = .ok (true, t :: r, some "") := by
  have hsw : skipWhitespaces (d :: t :: r) = d :: t :: r := by
    unfold skipWhitespaces; rw [hw]; simp
  unfold readTokenCore
  rw [hsw]
  simp only [hs, hn, ht, hf, hq, Bool.false_eq_true, if_false, ite_false]
  unfold scanNumberTok
  rw [htn]
  simp only [Bool.false_eq_true, if_false, ite_false]
  unfold goSlice
  rw [if_pos ⟨by positivity, le_refl _, le_refl _⟩]
  simp

/-- Witness for C8 at a concrete input: scanning the numeric literal `5`
terminated by `,` leaves the `,` unconsumed at the head of the buffer. -/
theorem claim_C8_numeric_pushback_witness :
    readTokenCore ('5' :: ',' :: []) = .ok (true, [','], some "") :=
  claim_C8_numeric_pushback '5' ',' [] (by decide) (by decide) (by decide)
    (by decide) (by decide) (by decide) (by decide)

/-! ## Whitespace insensitivity (claim C7)

`WsIns b b'` says `b'` is `b` with extra whitespace inserted between
tokens: at the start of the input, and after the consumed span of any
`readNextToken` call that produced a token, recursively.  These are
exactly the positions "between tokens": every token boundary of a run is
the buffer left behind by the token-producing read before it (or the start
of the input), and the parser reaches each such buffer as the argument of
its next `readNextToken` call. -/

/-- A buffer consisting only of lexer whitespace. -/
def wsOnly (w : List Char) : Prop := w.all isWsChar = true

/-- Whitespace insertion at token boundaries (see section header). -/
inductive WsIns : List Char → List Char → Prop where
  | refl (b : List Char) : WsIns b b
  | front (w b b' : List Char) : wsOnly w → WsIns b b' → WsIns b (w ++ b')
  | seg (c r r' : List Char) (tok : String) :
      readTokenCore (c ++ r) = .ok (true, r, some tok) →
      WsIns r r' → WsIns (c ++ r) (c ++ r')

theorem skipWhitespaces_append {w : List Char} (x : List Char) (hw : wsOnly w) :
    skipWhitespaces (w ++ x) = skipWhitespaces x := by
  induction w with
  | nil => rfl
  | cons a as ih =>
    have ha : isWsChar a = true := by
      have := (List.all_eq_true.mp hw) a (by simp)
      simpa using this
    have has : wsOnly as := by
      rw [wsOnly, List.all_eq_true]
      intro y hy
      exact (List.all_eq_true.mp hw) y (by simp [hy])
    simpa [skipWhitespaces, ha] using ih has

theorem readTokenCore_ws_append {w : List Char} (x : List Char) (hw : wsOnly w) :
    readTokenCore (w ++ x) = readTokenCore x := by
  unfold readTokenCore
  rw [skipWhitespaces_append x hw]

theorem skipWhitespaces_decomp (b : List Char) :
    ∃ w, wsOnly w ∧ b = w ++ skipWhitespaces b := by
  induction b with
  | nil => exact ⟨[], rfl, rfl⟩
  | cons a as ih =>
    by_cases ha : isWsChar a = true
    · obtain ⟨w, hw, hdec⟩ := ih
      refine ⟨a :: w, ?_, ?_⟩
      · rw [wsOnly, List.all_eq_true]
        intro y hy
        rcases List.mem_cons.mp hy with h | h
        · subst h; simpa using ha
        · exact (List.all_eq_true.mp hw) y h
      · simpa [skipWhitespaces, ha] using hdec
    · refine ⟨[], rfl, ?_⟩
      simp [skipWhitespaces, ha]

theorem skipWhitespaces_head {b : List Char} {c : Char} {rest : List Char}
    (h : skipWhitespaces b = c :: rest) : isWsChar c = false := by
  induction b with
  | nil => simp [skipWhitespaces] at h
  | cons a as ih =>
    unfold skipWhitespaces at h
    by_cases ha : isWsChar a = true
    · rw [if_pos ha] at h; exact ih h
    · rw [if_neg ha] at h
      obtain ⟨rfl, -⟩ := List.cons.inj h
      simpa using ha

/-- The string scan is called with `start` equal to the buffer length and
can therefore never assign a token: the slice panics instead (see C4). -/
theorem scanStringTok_no_some {l : List Char} {start : Nat} (hle : l.length ≤ start)
    {r : List Char} {tok : String} : scanStringTok l start ≠ .ok (r, some tok) := by
  induction l generalizing r with
  | nil => intro h; simp [scanStringTok] at h
  | cons a as ih =>
    intro h
    unfold scanStringTok at h
    by_cases ha : a = '"'
    · rw [if_pos ha] at h
      have hnone : goSlice as (start : Int) ((as.length : Int) - 1) = none := by
        unfold goSlice
        rw [if_neg]
        rintro ⟨-, h2, -⟩
        have hlen : (as.length : Int) + 1 ≤ (start : Int) := by
          simp only [List.length_cons] at hle
          exact_mod_cast hle
        omega
      rw [hnone] at h
      simp at h
    · rw [if_neg ha] at h
      exact ih (by simp at hle; omega) h

/-- Once the numeric scan has consumed a byte inside the loop, `start`
strictly exceeds the remaining length and no token can be assigned: the
slice panics instead (see C6). -/
theorem scanNumberTok_no_some_lt {l : List Char} {start : Nat} (hlt : l.length < start)
    {r : List Char} {tok : String} : scanNumberTok l start ≠ .ok (r, some tok) := by
  induction l generalizing r with
  | nil => intro h; simp [scanNumberTok] at h
  | cons a as ih =>
    intro h
    unfold scanNumberTok at h
    by_cases ha : isNumChar a = true
    · rw [if_pos ha] at h
      exact ih (by simp at hlt; omega) h
    · rw [if_neg ha] at h
      have hnone : goSlice (a :: as) (start : Int) (((a :: as).length : Int)) = none := by
        unfold goSlice
        rw [if_neg]
        rintro ⟨-, h2, h3⟩
        have : (start : Int) ≤ ((a :: as).length : Int) := le_trans h2 h3
        have hlen : ((a :: as).length : Int) < (start : Int) := by exact_mod_cast hlt
        omega
      rw [hnone] at h
      simp at h

/-- When the numeric scan both starts and is measured at the same buffer,
a token assignment forces the very first byte to be the terminator: the
token is empty and nothing is consumed. -/
theorem scanNumberTok_some_inv {l r : List Char} {tok : String}
    (h : scanNumberTok l l.length = .ok (r, some tok)) :
    ∃ y cs, l = y :: cs ∧ isNumChar y = false ∧ r = l ∧ tok = "" := by
  cases l with
  | nil => simp [scanNumberTok] at h
  | cons y cs =>
    unfold scanNumberTok at h
    by_cases hy : isNumChar y = true
    · rw [if_pos hy] at h
      exact absurd h (scanNumberTok_no_some_lt (by simp))
    · rw [if_neg hy] at h
      have hsome : goSlice (y :: cs) (((y :: cs).length : Nat) : Int)
          (((y :: cs).length : Int)) = some [] := by
        unfold goSlice
        rw [if_pos ⟨by positivity, le_refl _, le_refl _⟩]
        simp
      rw [hsome] at h
      simp only [Except.ok.injEq, Prod.mk.injEq, Option.some.injEq] at h
      exact ⟨y, cs, rfl, by simpa using hy, h.1.symm, h.2.symm⟩

/-- Inversion for a token-producing `readNextToken`: the buffer splits as
skipped whitespace, the dispatch byte, the extra bytes the branch consumed,
and the untouched rest, with the token determined by the branch.  (The
string branch never produces a token — it panics on any closing quote — and
the numeric branch only does so when the terminator is the very next byte;
see C4/C6.) -/
theorem readTokenCore_some_inv {b r : List Char} {tok : String}
    (h : readTokenCore b = .ok (true, r, some tok)) :
    ∃ w d, wsOnly w ∧ isWsChar d = false ∧
      ((isStructuralChar d = true ∧ b = w ++ d :: r ∧ tok = String.mk [d]) ∨
       (d = 'n' ∧ b = w ++ d :: ("null".toList ++ r) ∧ tok = "null") ∨
       (d = 't' ∧ b = w ++ d :: ("true".toList ++ r) ∧ tok = "true") ∨
       (d = 'f' ∧ b = w ++ d :: ("false".toList ++ r) ∧ tok = "false") ∨
       (isStructuralChar d = false ∧ d ≠ 'n' ∧ d ≠ 't' ∧ d ≠ 'f' ∧ d ≠ '"' ∧
        b = w ++ d :: r ∧ tok = "" ∧ ∃ y cs, r = y :: cs ∧ isNumChar y = false)) := by
  unfold readTokenCore at h
  cases hsw : skipWhitespaces b <;> rw [hsw] at h
  · simp at h
  case cons d rest =>
    dsimp only at h
    obtain ⟨w, hw, hdec⟩ := skipWhitespaces_decomp b
    rw [hsw] at hdec
    have hd : isWsChar d = false := skipWhitespaces_head hsw
    refine ⟨w, d, hw, hd, ?_⟩
    by_cases h1 : isStructuralChar d = true
    · rw [if_pos h1] at h
      simp only [Except.ok.injEq, Prod.mk.injEq, Option.some.injEq, true_and] at h
      obtain ⟨hrest, htok⟩ := h
      exact Or.inl ⟨h1, by rw [hdec, hrest], htok.symm⟩
    · rw [if_neg h1] at h
      by_cases h2 : d = 'n'
      · rw [if_pos h2] at h
        by_cases h3 : 4 ≤ rest.length
        · rw [if_pos h3] at h
          by_cases h4 : rest.take 4 = "null".toList
          · rw [if_pos h4] at h
            simp only [Except.ok.injEq, Prod.mk.injEq, Option.some.injEq, true_and] at h
            obtain ⟨hrest, htok⟩ := h
            refine Or.inr (Or.inl ⟨h2, ?_, htok.symm⟩)
            rw [hdec]
            have hre : rest = "null".toList ++ r := by
              conv_lhs => rw [← List.take_append_drop 4 rest]
              rw [h4, hrest]
            rw [hre]
          · rw [if_neg h4] at h; simp at h
        · rw [if_neg h3] at h; simp at h
      · rw [if_neg h2] at h
        by_cases h3 : d = 't'
        · rw [if_pos h3] at h
          by_cases h4 : 4 ≤ rest.length
          · rw [if_pos h4] at h
            by_cases h5 : rest.take 4 = "true".toList
            · rw [if_pos h5] at h
              simp only [Except.ok.injEq, Prod.mk.injEq, Option.some.injEq, true_and] at h
              obtain ⟨hrest, htok⟩ := h
              refine Or.inr (Or.inr (Or.inl ⟨h3, ?_, htok.symm⟩))
              rw [hdec]
              have hre : rest = "true".toList ++ r := by
                conv_lhs => rw [← List.take_append_drop 4 rest]
                rw [h5, hrest]
              rw [hre]
            · rw [if_neg h5] at h; simp at h
          · rw [if_neg h4] at h; simp at h
        · rw [if_neg h3] at h
          by_cases h4 : d = 'f'
          · rw [if_pos h4] at h
            by_cases h5 : 5 ≤ rest.length
            · rw [if_pos h5] at h
              by_cases h6 : rest.take 5 = "false".toList
              · rw [if_pos h6] at h
                simp only [Except.ok.injEq, Prod.mk.injEq, Option.some.injEq, true_and] at h
                obtain ⟨hrest, htok⟩ := h
                refine Or.inr (Or.inr (Or.inr (Or.inl ⟨h4, ?_, htok.symm⟩)))
                rw [hdec]
                have hre : rest = "false".toList ++ r := by
                  conv_lhs => rw [← List.take_append_drop 5 rest]
                  rw [h6, hrest]
                rw [hre]
              · rw [if_neg h6] at h; simp at h
            · rw [if_neg h5] at h; simp at h
          · rw [if_neg h4] at h
            by_cases h5 : d = '"'
            · rw [if_pos h5] at h
              cases hscan : scanStringTok rest rest.length <;> rw [hscan] at h
              next e => simp at h
              next t =>
                obtain ⟨r2, tk⟩ := t
                simp only [Except.ok.injEq, Prod.mk.injEq, true_and] at h
                obtain ⟨hr2, htk⟩ := h
                subst hr2; subst htk
                exact absurd hscan (scanStringTok_no_some le_rfl)
            · rw [if_neg h5] at h
              cases hscan : scanNumberTok rest rest.length <;> rw [hscan] at h
              next e => simp at h
              next t =>
                obtain ⟨r2, tk⟩ := t
                simp only [Except.ok.injEq, Prod.mk.injEq, true_and] at h
                obtain ⟨hr2, htk⟩ := h
                subst hr2; subst htk
                obtain ⟨y, cs, hrst, hy, hr, htok0⟩ := scanNumberTok_some_inv hscan
                refine Or.inr (Or.inr (Or.inr (Or.inr
                  ⟨by simpa using h1, h2, h3, h4, h5, ?_, htok0, y, cs, ?_, hy⟩)))
                · rw [hdec, hr]
                · rw [hr, hrst]

theorem skipWhitespaces_cons_of_neg {d : Char} (x : List Char) (hd : isWsChar d = false) :
    skipWhitespaces (d :: x) = d :: x := by
  unfold skipWhitespaces
  rw [hd]
  simp

theorem goSlice_self (l : List Char) :
    goSlice l (l.length : Int) (l.length : Int) = some [] := by
  unfold goSlice
  rw [if_pos ⟨by positivity, le_refl _, le_refl _⟩]
  simp

theorem scanNumberTok_terminator {y : Char} {cs : List Char} (hy : isNumChar y = false) :
    scanNumberTok (y :: cs) (y :: cs).length = .ok (y :: cs, some "") := by
  unfold scanNumberTok
  rw [if_neg (by simp [hy]), goSlice_self]

/-- A token-producing read consumes at least one byte. -/
theorem readTokenCore_some_shrinks {b r : List Char} {tok : String}
    (h : readTokenCore b = .ok (true, r, some tok)) : r.length < b.length := by
  obtain ⟨w, d, -, -, hc⟩ := readTokenCore_some_inv h
  rcases hc with ⟨-, hb, -⟩ | ⟨-, hb, -⟩ | ⟨-, hb, -⟩ | ⟨-, hb, -⟩ | ⟨-, -, -, -, -, hb, -, -⟩ <;>
    rw [hb] <;> simp <;> omega

theorem readTokenCore_consumed_ne_nil {c r : List Char} {tok : String}
    (h : readTokenCore (c ++ r) = .ok (true, r, some tok)) : c ≠ [] := by
  intro hc
  subst hc
  rw [List.nil_append] at h
  exact absurd (readTokenCore_some_shrinks h) (lt_irrefl _)

theorem wsIns_ne_nil {r r' : List Char} (h : WsIns r r') : r ≠ [] → r' ≠ [] := by
  induction h with
  | refl b => exact id
  | front w b b' hw h ih =>
    intro hne hcon
    obtain ⟨-, hb'⟩ := List.append_eq_nil.mp hcon
    exact ih hne hb'
  | seg c r2 r2' tok hcore h ih =>
    intro hne hcon
    obtain ⟨hc0, -⟩ := List.append_eq_nil.mp hcon
    exact readTokenCore_consumed_ne_nil hcore hc0

theorem wsIns_head {r r' : List Char} (h : WsIns r r') :
    ∀ y, r'.head? = some y → isWsChar y = true ∨ r.head? = some y := by
  induction h with
  | refl b => exact fun y hy => Or.inr hy
  | front w b b' hw h ih =>
    intro y hy
    cases w with
    | nil => exact ih y (by simpa using hy)
    | cons a as =>
      left
      simp only [List.cons_append, List.head?_cons, Option.some.injEq] at hy
      rw [← hy]
      have := (List.all_eq_true.mp hw) a (by simp)
      simpa using this
  | seg c r2 r2' tok hcore h ih =>
    intro y hy
    right
    have hc := readTokenCore_consumed_ne_nil hcore
    cases c with
    | nil => exact absurd rfl hc
    | cons a as =>
      simp only [List.cons_append, List.head?_cons] at hy ⊢
      exact hy

theorem wsChar_not_num {y : Char} (h : isWsChar y = true) : isNumChar y = false := by
  simp only [isWsChar, Bool.or_eq_true, decide_eq_true_eq] at h
  rcases h with ((h | h) | h) | h <;> subst h <;> decide

/-- Re-running a token-producing read with whitespace inserted after its
consumed span: same token, and the rest is the modified rest. -/
theorem readTokenCore_seg {c r r' : List Char} {tok : String}
    (hcore : readTokenCore (c ++ r) = .ok (true, r, some tok))
    (hins : WsIns r r') :
    readTokenCore (c ++ r') = .ok (true, r', some tok) := by
  obtain ⟨w, d, hw, hd, hc⟩ := readTokenCore_some_inv hcore
  rcases hc with ⟨hstr, hb, htok⟩ | ⟨hd2, hb, htok⟩ | ⟨hd2, hb, htok⟩ | ⟨hd2, hb, htok⟩ |
    ⟨h1, h2, h3, h4, h5, hb, htok, y, cs, hr, hy⟩
  · -- structural token
    have hcc : c = w ++ [d] := List.append_cancel_right
      (by simpa [List.append_assoc] using hb)
    subst hcc htok
    rw [show (w ++ [d]) ++ r' = w ++ (d :: r') by simp]
    rw [readTokenCore_ws_append _ hw]
    unfold readTokenCore
    rw [skipWhitespaces_cons_of_neg _ hd]
    dsimp only
    rw [if_pos hstr]
  · -- null literal
    subst hd2
    have hcc : c = w ++ 'n' :: "null".toList := List.append_cancel_right
      (by simpa [List.append_assoc] using hb)
    subst hcc htok
    rw [show (w ++ 'n' :: "null".toList) ++ r' = w ++ ('n' :: ("null".toList ++ r')) by simp]
    rw [readTokenCore_ws_append _ hw]
    unfold readTokenCore
    rw [skipWhitespaces_cons_of_neg _ hd]
    dsimp only
    rw [if_neg (by decide), if_pos rfl, if_pos (by simp),
      if_pos (List.take_left' (by decide)), List.drop_left' (by decide)]
  · -- true literal
    subst hd2
    have hcc : c = w ++ 't' :: "true".toList := List.append_cancel_right
      (by simpa [List.append_assoc] using hb)
    subst hcc htok
    rw [show (w ++ 't' :: "true".toList) ++ r' = w ++ ('t' :: ("true".toList ++ r')) by simp]
    rw [readTokenCore_ws_append _ hw]
    unfold readTokenCore
    rw [skipWhitespaces_cons_of_neg _ hd]
    dsimp only
    rw [if_neg (by decide), if_neg (by decide), if_pos rfl, if_pos (by simp),
      if_pos (List.take_left' (by decide)), List.drop_left' (by decide)]
  · -- false literal
    subst hd2
    have hcc : c = w ++ 'f' :: "false".toList := List.append_cancel_right
      (by simpa [List.append_assoc] using hb)
    subst hcc htok
    rw [show (w ++ 'f' :: "false".toList) ++ r' = w ++ ('f' :: ("false".toList ++ r')) by simp]
    rw [readTokenCore_ws_append _ hw]
    unfold readTokenCore
    rw [skipWhitespaces_cons_of_neg _ hd]
    dsimp only
    rw [if_neg (by decide), if_neg (by decide), if_neg (by decide), if_pos rfl,
      if_pos (by simp), if_pos (List.take_left' (by decide)), List.drop_left' (by decide)]
  · -- single-byte numeric span with unread terminator
    have hcc : c = w ++ [d] := List.append_cancel_right
      (by simpa [List.append_assoc] using hb)
    subst hcc htok
    have hr'ne : r' ≠ [] := wsIns_ne_nil hins (by rw [hr]; simp)
    obtain ⟨y2, cs2, hr2⟩ := List.exists_cons_of_ne_nil hr'ne
    have hy2 : isNumChar y2 = false := by
      rcases wsIns_head hins y2 (by rw [hr2]; rfl) with hws | hhd
      · exact wsChar_not_num hws
      · rw [hr] at hhd
        simp only [List.head?_cons, Option.some.injEq] at hhd
        exact hhd ▸ hy
    rw [show (w ++ [d]) ++ r' = w ++ (d :: r') by simp]
    rw [readTokenCore_ws_append _ hw]
    unfold readTokenCore
    rw [skipWhitespaces_cons_of_neg _ hd]
    dsimp only
    rw [if_neg (by simp [h1]), if_neg h2, if_neg h3, if_neg h4, if_neg h5]
    rw [hr2, scanNumberTok_terminator hy2]

/-- Relation between a lexer-core outcome and the outcome on a buffer with
whitespace inserted between tokens: same panic, or same flag and token with
related rests. -/
def CoreRel : Except GoErr (Bool × List Char × Option String) →
    Except GoErr (Bool × List Char × Option String) → Prop
  | .error e, .error e2 => e = e2
  | .ok (b, r, tk), .ok (b2, r2, tk2) => b = b2 ∧ tk = tk2 ∧ WsIns r r2
  | _, _ => False

theorem core_rel_of_wsIns {b b' : List Char} (h : WsIns b b') :
    CoreRel (readTokenCore b) (readTokenCore b') := by
  induction h with
  | refl b =>
    cases hc : readTokenCore b with
    | error e => exact rfl
    | ok t =>
      obtain ⟨bb, r, tk⟩ := t
      exact ⟨rfl, rfl, WsIns.refl r⟩
  | front w b b' hw h ih =>
    rw [readTokenCore_ws_append _ hw]
    exact ih
  | seg c r r' tok hcore h ih =>
    rw [hcore, readTokenCore_seg hcore h]
    exact ⟨rfl, rfl, h⟩

/-- Two parser states related by token equality and whitespace insertion in
the remaining input. -/
def StRel (p p' : JSONParser) : Prop :=
  p.currentToken = p'.currentToken ∧ WsIns p.input p'.input

/-- `CoreRel` lifted through `readNextToken`. -/
def RntRel : Except GoErr (Bool × JSONParser) → Except GoErr (Bool × JSONParser) → Prop
  | .error e, .error e2 => e = e2
  | .ok (b, q), .ok (b2, q2) => b = b2 ∧ StRel q q2
  | _, _ => False

theorem readNextToken_rel {p p' : JSONParser} (h : StRel p p') :
    RntRel (readNextToken p) (readNextToken p') := by
  have hcr := core_rel_of_wsIns h.2
  unfold readNextToken
  cases hc : readTokenCore p.input with
  | error e =>
    cases hc' : readTokenCore p'.input with
    | error e2 =>
      rw [hc, hc'] at hcr
      exact hcr
    | ok t =>
      obtain ⟨b2, r2, tk2⟩ := t
      rw [hc, hc'] at hcr
      exact hcr.elim
  | ok t =>
    obtain ⟨b, r, tk⟩ := t
    cases hc' : readTokenCore p'.input with
    | error e2 =>
      rw [hc, hc'] at hcr
      exact hcr.elim
    | ok t2 =>
      obtain ⟨b2, r2, tk2⟩ := t2
      rw [hc, hc'] at hcr
      obtain ⟨hb, htk, hins⟩ := hcr
      subst hb
      subst htk
      exact ⟨rfl, by rw [h.1], hins⟩

/-- Relation between two parse outcomes: same panic or fuel exhaustion, or
the same value with related final states. -/
def ExRel : Except GoErr (JSONValue × JSONParser) →
    Except GoErr (JSONValue × JSONParser) → Prop
  | .error e, .error e2 => e = e2
  | .ok (v, q), .ok (v2, q2) => v = v2 ∧ StRel q q2
  | _, _ => False

/-- The simulation: all five parse functions, run with the same fuel from
related states, produce the same value or the same error, with related
final states. -/
theorem parse_sim : ∀ n : Nat,
    (∀ p p', StRel p p' → ExRel (parseValue n p) (parseValue n p')) ∧
    (∀ p p', StRel p p' → ExRel (parseObject n p) (parseObject n p')) ∧
    (∀ acc p p', StRel p p' → ExRel (parseObjectLoop n p acc) (parseObjectLoop n p' acc)) ∧
    (∀ p p', StRel p p' → ExRel (parseArray n p) (parseArray n p')) ∧
    (∀ acc p p', StRel p p' → ExRel (parseArrayLoop n p acc) (parseArrayLoop n p' acc)) := by
  intro n
  induction n with
  | zero =>
    exact ⟨fun p p' h => rfl, fun p p' h => rfl, fun acc p p' h => rfl,
      fun p p' h => rfl, fun acc p p' h => rfl⟩
  | succ n ih =>
    obtain ⟨ihv, iho, ihol, iha, ihal⟩ := ih
    refine ⟨?_, ?_, ?_, ?_, ?_⟩
    · -- parseValue
      intro p p' h
      have hr := readNextToken_rel h
      cases hq : readNextToken p with
      | error e =>
        cases hq' : readNextToken p' with
        | error e2 =>
          rw [hq, hq'] at hr
          simp only [parseValue, hq, hq']
          exact hr
        | ok t =>
          obtain ⟨b2, q2⟩ := t
          rw [hq, hq'] at hr
          exact hr.elim
      | ok t =>
        obtain ⟨b, q⟩ := t
        cases hq' : readNextToken p' with
        | error e2 =>
          rw [hq, hq'] at hr
          exact hr.elim
        | ok t2 =>
          obtain ⟨b2, q2⟩ := t2
          rw [hq, hq'] at hr
          obtain ⟨hb, hqq⟩ := hr
          simp only [parseValue, hq, hq']
          rw [← hqq.1]
          by_cases h1 : q.currentToken = "null"
          · rw [if_pos h1, if_pos h1]; exact ⟨rfl, hqq⟩
          rw [if_neg h1, if_neg h1]
          by_cases h2 : q.currentToken = "true"
          · rw [if_pos h2, if_pos h2]; exact ⟨rfl, hqq⟩
          rw [if_neg h2, if_neg h2]
          by_cases h3 : q.currentToken = "false"
          · rw [if_pos h3, if_pos h3]; exact ⟨rfl, hqq⟩
          rw [if_neg h3, if_neg h3]
          by_cases h4 : q.currentToken = "\x7b"
          · rw [if_pos h4, if_pos h4]; exact iho _ _ hqq
          rw [if_neg h4, if_neg h4]
          by_cases h5 : q.currentToken = "["
          · rw [if_pos h5, if_pos h5]; exact iha _ _ hqq
          rw [if_neg h5, if_neg h5]
          by_cases h6 : goFloatOk q.currentToken = true
          · rw [if_pos h6, if_pos h6]; exact ⟨rfl, hqq⟩
          · rw [if_neg h6, if_neg h6]; exact ⟨rfl, hqq⟩
    · -- parseObject
      intro p p' h
      have hr := readNextToken_rel h
      cases hq : readNextToken p with
      | error e =>
        cases hq' : readNextToken p' with
        | error e2 =>
          rw [hq, hq'] at hr
          simp only [parseObject, hq, hq']
          exact hr
        | ok t =>
          obtain ⟨b2, q2⟩ := t
          rw [hq, hq'] at hr
          exact hr.elim
      | ok t =>
        obtain ⟨b, q⟩ := t
        cases hq' : readNextToken p' with
        | error e2 =>
          rw [hq, hq'] at hr
          exact hr.elim
        | ok t2 =>
          obtain ⟨b2, q2⟩ := t2
          rw [hq, hq'] at hr
          obtain ⟨hb, hqq⟩ := hr
          simp only [parseObject, hq, hq']
          exact ihol [] _ _ hqq
    · -- parseObjectLoop
      intro acc p p' h
      simp only [parseObjectLoop]
      rw [← h.1]
      by_cases hc : p.currentToken = "\x7d"
      · rw [if_pos hc, if_pos hc]; exact ⟨rfl, h⟩
      rw [if_neg hc, if_neg hc]
      have hr := readNextToken_rel h
      cases hq : readNextToken p with
      | error e =>
        cases hq' : readNextToken p' with
        | error e2 =>
          rw [hq, hq'] at hr
          simp only [hq, hq']
          exact hr
        | ok t =>
          obtain ⟨b2, q2⟩ := t
          rw [hq, hq'] at hr
          exact hr.elim
      | ok t =>
        obtain ⟨b, q⟩ := t
        cases hq' : readNextToken p' with
        | error e2 =>
          rw [hq, hq'] at hr
          exact hr.elim
        | ok t2 =>
          obtain ⟨b2, q2⟩ := t2
          rw [hq, hq'] at hr
          obtain ⟨hb, hqq⟩ := hr
          simp only [hq, hq']
          rw [← hqq.1]
          by_cases hsep : q.currentToken = ":"
          · rw [if_pos hsep, if_pos hsep]
            have hr2 := readNextToken_rel hqq
            cases hq2 : readNextToken q with
            | error e =>
              cases hq2' : readNextToken q2 with
              | error e2 =>
                rw [hq2, hq2'] at hr2
                simp only [hq2, hq2']
                exact hr2
              | ok t3 =>
                obtain ⟨b3, q3⟩ := t3
                rw [hq2, hq2'] at hr2
                exact hr2.elim
            | ok t3 =>
              obtain ⟨b3, q3⟩ := t3
              cases hq2' : readNextToken q2 with
              | error e2 =>
                rw [hq2, hq2'] at hr2
                exact hr2.elim
              | ok t4 =>
                obtain ⟨b4, q4⟩ := t4
                rw [hq2, hq2'] at hr2
                obtain ⟨hb2, hqq2⟩ := hr2
                simp only [hq2, hq2']
                have hv := ihv q3 q4 hqq2
                cases hpv : parseValue n q3 with
                | error e =>
                  cases hpv' : parseValue n q4 with
                  | error e2 =>
                    rw [hpv, hpv'] at hv
                    simp only [hpv, hpv']
                    exact hv
                  | ok t5 =>
                    obtain ⟨v2, q6⟩ := t5
                    rw [hpv, hpv'] at hv
                    exact hv.elim
                | ok t5 =>
                  obtain ⟨v, q5⟩ := t5
                  cases hpv' : parseValue n q4 with
                  | error e2 =>
                    rw [hpv, hpv'] at hv
                    exact hv.elim
                  | ok t6 =>
                    obtain ⟨v2, q6⟩ := t6
                    rw [hpv, hpv'] at hv
                    obtain ⟨hveq, hrel5⟩ := hv
                    subst hveq
                    simp only [hpv, hpv']
                    have hr3 := readNextToken_rel hrel5
                    cases hq3 : readNextToken q5 with
                    | error e =>
                      cases hq3' : readNextToken q6 with
                      | error e2 =>
                        rw [hq3, hq3'] at hr3
                        simp only [hq3, hq3']
                        exact hr3
                      | ok t7 =>
                        obtain ⟨b7, q7⟩ := t7
                        rw [hq3, hq3'] at hr3
                        exact hr3.elim
                    | ok t7 =>
                      obtain ⟨b7, q7⟩ := t7
                      cases hq3' : readNextToken q6 with
                      | error e2 =>
                        rw [hq3, hq3'] at hr3
                        exact hr3.elim
                      | ok t8 =>
                        obtain ⟨b8, q8⟩ := t8
                        rw [hq3, hq3'] at hr3
                        obtain ⟨hb3, hqq3⟩ := hr3
                        simp only [hq3, hq3']
                        exact ihol _ _ _ hqq3
          · rw [if_neg hsep, if_neg hsep]
            exact rfl
    · -- parseArray
      intro p p' h
      have hr := readNextToken_rel h
      cases hq : readNextToken p with
      | error e =>
        cases hq' : readNextToken p' with
        | error e2 =>
          rw [hq, hq'] at hr
          simp only [parseArray, hq, hq']
          exact hr
        | ok t =>
          obtain ⟨b2, q2⟩ := t
          rw [hq, hq'] at hr
          exact hr.elim
      | ok t =>
        obtain ⟨b, q⟩ := t
        cases hq' : readNextToken p' with
        | error e2 =>
          rw [hq, hq'] at hr
          exact hr.elim
        | ok t2 =>
          obtain ⟨b2, q2⟩ := t2
          rw [hq, hq'] at hr
          obtain ⟨hb, hqq⟩ := hr
          simp only [parseArray, hq, hq']
          exact ihal [] _ _ hqq
    · -- parseArrayLoop
      intro acc p p' h
      simp only [parseArrayLoop]
      rw [← h.1]
      by_cases hc : p.currentToken = "\x7d"
      · rw [if_pos hc, if_pos hc]; exact ⟨rfl, h⟩
      rw [if_neg hc, if_neg hc]
      have hv := ihv p p' h
      cases hpv : parseValue n p with
      | error e =>
        cases hpv' : parseValue n p' with
        | error e2 =>
          rw [hpv, hpv'] at hv
          simp only [hpv, hpv']
          exact hv
        | ok t =>
          obtain ⟨v2, q2⟩ := t
          rw [hpv, hpv'] at hv
          exact hv.elim
      | ok t =>
        obtain ⟨v, q⟩ := t
        cases hpv' : parseValue n p' with
        | error e2 =>
          rw [hpv, hpv'] at hv
          exact hv.elim
        | ok t2 =>
          obtain ⟨v2, q2⟩ := t2
          rw [hpv, hpv'] at hv
          obtain ⟨hveq, hrel⟩ := hv
          subst hveq
          simp only [hpv, hpv']
          have hr := readNextToken_rel hrel
          cases hq : readNextToken q with
          | error e =>
            cases hq' : readNextToken q2 with
            | error e2 =>
              rw [hq, hq'] at hr
              simp only [hq, hq']
              exact hr
            | ok t3 =>
              obtain ⟨b3, q3⟩ := t3
              rw [hq, hq'] at hr
              exact hr.elim
          | ok t3 =>
            obtain ⟨b3, q3⟩ := t3
            cases hq' : readNextToken q2 with
            | error e2 =>
              rw [hq, hq'] at hr
              exact hr.elim
            | ok t4 =>
              obtain ⟨b4, q4⟩ := t4
              rw [hq, hq'] at hr
              obtain ⟨hb, hqq⟩ := hr
              simp only [hq, hq']
              exact ihal _ _ _ hqq

/-- Claim C7: inserting extra space/tab/CR/LF bytes between tokens (as
captured by `WsIns`: at the start of the input and after the span consumed
by any token-producing read, recursively) never changes the result of the
top-level parse — the same value, the same panic, or the same fuel
exhaustion at equal fuel. -/
theorem claim_C7_whitespace_insensitive (fuel : Nat) (b b' : List Char)
    (h : WsIns b b') : runParseBuf fuel b' = runParseBuf fuel b := by
  have hsim := (parse_sim fuel).1 ⟨b, ""⟩ ⟨b', ""⟩ ⟨rfl, h⟩
  unfold runParseBuf
  cases hp : parseValue fuel ⟨b, ""⟩ with
  | error e =>
    cases hp' : parseValue fuel ⟨b', ""⟩ with
    | error e2 =>
      rw [hp, hp'] at hsim
      simp only [hp, hp']
      rw [hsim]
    | ok t =>
      obtain ⟨v2, q2⟩ := t
      rw [hp, hp'] at hsim
      exact hsim.elim
  | ok t =>
    obtain ⟨v, q⟩ := t
    cases hp' : parseValue fuel ⟨b', ""⟩ with
    | error e2 =>
      rw [hp, hp'] at hsim
      exact hsim.elim
    | ok t2 =>
      obtain ⟨v2, q2⟩ := t2
      rw [hp, hp'] at hsim
      simp only [hp, hp']
      rw [hsim.1]

/-- Witness for C7 at a concrete input: inserting a space between the
tokens `[` and `}` of `[}` (the input on which the buggy array loop does
terminate) changes nothing: both parses return the empty Array. -/
theorem claim_C7_whitespace_insensitive_witness :
    WsIns "[\x7d".toList "[ \x7d".toList ∧
    runParseBuf 10 "[ \x7d".toList = runParseBuf 10 "[\x7d".toList ∧
    runParseBuf 10 "[\x7d".toList = .ok (.array []) := by
  have h1 : WsIns "\x7d".toList " \x7d".toList :=
    WsIns.front [' '] _ _ rfl (WsIns.refl _)
  have hseg : WsIns "[\x7d".toList "[ \x7d".toList :=
    WsIns.seg ['['] "\x7d".toList " \x7d".toList "[" rfl h1
  exact ⟨hseg, claim_C7_whitespace_insensitive 10 _ _ hseg, rfl⟩
